import Mathlib

/-!
Verification of the simple-database core (`src/include/repl.h`).

The repository ships only the header `src/include/repl.h`, which fixes the
data model (the `Row`, `Statement`, `Table` structures, the result enums and
the size constants) and declares the operations (`serialize_row`,
`deserialize_row`, `row_slot`, `execute_statement`, `new_table`).  The bodies
of those functions are not under `src/`, so each body below is modelled from
the specification (`spec.md`), faithful to its words; the types and the
constants are taken from the header.

Bytes are modelled as natural numbers below 256, pages as lists of bytes of
length `PAGE_SIZE`, machine integers as `Nat` with explicit `% 2^32` where
overflow matters.
-/

set_option maxRecDepth 20000

namespace SimpleDb

/-- Constant `COLUMN_USERNAME_SIZE` from `repl.h` line 11. -/
def COLUMN_USERNAME_SIZE : Nat := 32

/-- Constant `COLUMN_EMAIL_SIZE` from `repl.h` line 12. -/
def COLUMN_EMAIL_SIZE : Nat := 255

/-- Constant `PAGE_SIZE` from `repl.h` line 13. -/
def PAGE_SIZE : Nat := 4096

/-- Constant `TABLE_MAX_PAGES` from `repl.h` line 14. -/
def TABLE_MAX_PAGES : Nat := 100

/-- Width in bytes of the `id` field (`uint32_t` in the header). -/
def ID_SIZE : Nat := 4

/-- Width in bytes of the `username` field (`char[COLUMN_USERNAME_SIZE]`). -/
def USERNAME_SIZE : Nat := COLUMN_USERNAME_SIZE

/-- Width in bytes of the `email` field (`char[COLUMN_EMAIL_SIZE]`). -/
def EMAIL_SIZE : Nat := COLUMN_EMAIL_SIZE

/-- Modelled from the spec: the codec writes fields "at fixed byte offsets
determined solely by the schema"; the `id` field comes first. -/
def ID_OFFSET : Nat := 0

/-- Modelled from the spec: the `username` field follows the `id` field. -/
def USERNAME_OFFSET : Nat := ID_OFFSET + ID_SIZE

/-- Modelled from the spec: the `email` field follows the `username` field. -/
def EMAIL_OFFSET : Nat := USERNAME_OFFSET + USERNAME_SIZE

/-- Modelled from the spec: `ROW_SIZE` is referenced by `ROWS_PER_PAGE` in
`repl.h` but defined in the missing `.c` file; per §4.1 the "total encoded
size is a fixed constant derived from the schema", the sum of the three
field widths: 4 + 32 + 255 = 291. -/
def ROW_SIZE : Nat := ID_SIZE + USERNAME_SIZE + EMAIL_SIZE

/-- Derived constant `ROWS_PER_PAGE = PAGE_SIZE / ROW_SIZE` from `repl.h` line 17
(C integer division). -/
def ROWS_PER_PAGE : Nat := PAGE_SIZE / ROW_SIZE

/-- Derived constant `TABLE_MAX_ROWS = ROWS_PER_PAGE * TABLE_MAX_PAGES` from `repl.h` line 18. -/
def TABLE_MAX_ROWS : Nat := ROWS_PER_PAGE * TABLE_MAX_PAGES

/-- The `Row` structure from `repl.h` lines 63-67: a `uint32_t` id and two
fixed-capacity `char` arrays, modelled as byte lists whose well-formed
length is the declared array size. -/
structure Row where
  id : Nat
  username : List Nat
  email : List Nat
deriving DecidableEq, Repr

/-- A well-formed in-memory `Row`: the id fits in `uint32_t`, each text
field occupies exactly its fixed-capacity byte region, and every cell is a
byte. -/
def ValidRow (r : Row) : Prop :=
  r.id < 2 ^ 32 ∧
  r.username.length = COLUMN_USERNAME_SIZE ∧ (∀ b ∈ r.username, b < 256) ∧
  r.email.length = COLUMN_EMAIL_SIZE ∧ (∀ b ∈ r.email, b < 256)

instance (r : Row) : Decidable (ValidRow r) := by
  unfold ValidRow; infer_instance

/-- Little-endian byte encoding of a `uint32_t` value. -/
def encodeU32 (n : Nat) : List Nat :=
  [n % 256, n / 256 % 256, n / 256 ^ 2 % 256, n / 256 ^ 3 % 256]

/-- Little-endian byte decoding of a `uint32_t` value. -/
def decodeU32 (bs : List Nat) : Nat :=
  match bs with
  | [b0, b1, b2, b3] => b0 + 256 * b1 + 256 ^ 2 * b2 + 256 ^ 3 * b3
  | _ => 0

/-- Modelled from the spec: `serialize_row` (declared at `repl.h` line 160,
body missing from `src/`) "writes the row's fields into `out_bytes` at fixed
byte offsets determined solely by the schema". The encoded image is the id
bytes followed by the username region followed by the email region. -/
def serialize_row (source : Row) : List Nat :=
  encodeU32 source.id ++ source.username ++ source.email

/-- Modelled from the spec: `deserialize_row` (declared at `repl.h` line 167,
body missing from `src/`) "performs the inverse, reading the same fixed
offsets". -/
def deserialize_row (source : List Nat) : Row :=
  { id := decodeU32 ((source.drop ID_OFFSET).take ID_SIZE)
    username := (source.drop USERNAME_OFFSET).take USERNAME_SIZE
    email := (source.drop EMAIL_OFFSET).take EMAIL_SIZE }

/-- A memory page: a byte list, well-formed when of length `PAGE_SIZE`. -/
abbrev Page := List Nat

/-- A freshly allocated zero-initialized page. -/
def zeroPage : Page := List.replicate PAGE_SIZE 0

/-- The `Table` structure from `repl.h` lines 84-87: a row count and an
array of `TABLE_MAX_PAGES` page pointers, each `NULL` (here `none`) until
allocated. -/
structure Table where
  num_rows : Nat
  pages : List (Option Page)
deriving DecidableEq, Repr

/-- Modelled from the spec: `new_table` (declared at `repl.h` line 147, body
missing from `src/`) creates the table "empty (row_count = 0, no pages
allocated)". -/
def new_table : Table :=
  { num_rows := 0, pages := List.replicate TABLE_MAX_PAGES none }

/-- Modelled from the spec: the Page Store's `page_for(page_index)` (§4.2,
body missing from `src/`) returns the page at that index, "allocating a
fresh zero-initialized page region on first access if `page_index` is
within `[0, max_pages)`". Returns the page together with the possibly
updated table. -/
def page_for (t : Table) (page_index : Nat) : Page × Table :=
  match t.pages.getD page_index none with
  | some p => (p, t)
  | none => (zeroPage, { t with pages := t.pages.set page_index (some zeroPage) })

/-- Modelled from the spec: `row_slot` (declared at `repl.h` line 175, body
missing from `src/`) computes `page_index = row_number / rows_per_page` and
`byte_offset = (row_number % rows_per_page) * row_size`, requests that page
from the Page Store, and returns the slot address, modelled as the page
together with the byte offset into it, plus the possibly updated table. -/
def row_slot (t : Table) (row_num : Nat) : (Page × Nat) × Table :=
  let (page, t') := page_for t (row_num / ROWS_PER_PAGE)
  ((page, row_num % ROWS_PER_PAGE * ROW_SIZE), t')

/-- Overwrite `bs.length` bytes of page `p` starting at byte `off`. -/
def writeBytes (p : Page) (off : Nat) (bs : List Nat) : Page :=
  p.take off ++ bs ++ p.drop (off + bs.length)

/-- Read `len` bytes of page `p` starting at byte `off`. -/
def readBytes (p : Page) (off len : Nat) : List Nat :=
  (p.drop off).take len

/-- Serialize row `r` into the slot of row number `row_num`
(`serialize_row(row, row_slot(table, n))` in the C engine). -/
def writeRowAt (t : Table) (row_num : Nat) (r : Row) : Table :=
  let ((page, off), t') := row_slot t row_num
  { t' with
    pages := t'.pages.set (row_num / ROWS_PER_PAGE)
      (some (writeBytes page off (serialize_row r))) }

/-- Deserialize the row stored in the slot of row number `row_num`
(`deserialize_row(row_slot(table, i), &row)` in the C engine). -/
def readRowAt (t : Table) (row_num : Nat) : Row × Table :=
  let ((page, off), t') := row_slot t row_num
  (deserialize_row (readBytes page off ROW_SIZE), t')

/-- The row value stored at row number `row_num`, read without the
allocation side effect (an unallocated page reads as a zero page). -/
def readRowPure (t : Table) (row_num : Nat) : Row :=
  deserialize_row (readBytes ((t.pages.getD (row_num / ROWS_PER_PAGE) none).getD zeroPage)
    (row_num % ROWS_PER_PAGE * ROW_SIZE) ROW_SIZE)

/-- The abstract contents of the table: the rows stored at row numbers
`0 .. num_rows - 1`, in row-number order. -/
def tableRows (t : Table) : List Row :=
  (List.range t.num_rows).map (readRowPure t)

/-- The `StatementType` enum from `repl.h` lines 40-43. -/
inductive StatementType where
  | STATEMENT_INSERT
  | STATEMENT_SELECT
deriving DecidableEq, Repr

/-- The `Statement` structure from `repl.h` lines 74-77. -/
structure Statement where
  type : StatementType
  row_to_insert : Row
deriving DecidableEq, Repr

/-- The `ExecuteResult` enum from `repl.h` lines 34-37. -/
inductive ExecuteResult where
  | EXECUTE_SUCCESS
  | EXECUTE_TABLE_FULL
deriving DecidableEq, Repr

export ExecuteResult (EXECUTE_SUCCESS EXECUTE_TABLE_FULL)

/-- Modelled from the spec: the engine's insert path (§4.4, body missing
from `src/`): "precondition `table.row_count < max_rows`; if violated,
reports a table-full failure and performs no mutation. Otherwise calls
`table.append_slot()`, encodes the statement's row via the Row Codec into
that slot, then increments `row_count`". -/
def execute_insert (st : Statement) (t : Table) : ExecuteResult × Table :=
  if TABLE_MAX_ROWS ≤ t.num_rows then
    (EXECUTE_TABLE_FULL, t)
  else
    let t' := writeRowAt t t.num_rows st.row_to_insert
    (EXECUTE_SUCCESS, { t' with num_rows := t'.num_rows + 1 })

/-- Modelled from the spec: the engine's select scan (§4.4, body missing
from `src/`): "for `row_number` from `0` to `row_count - 1` inclusive,
computes `slot_for(row_number)`, decodes a Row via the Row Codec, and emits
it in row-number order". `i` is the next row number, `remaining` the number
of rows still to emit. -/
def select_rows (t : Table) (i : Nat) (remaining : Nat) : List Row × Table :=
  match remaining with
  | 0 => ([], t)
  | rem + 1 =>
    let (r, t') := readRowAt t i
    let (rs, t'') := select_rows t' (i + 1) rem
    (r :: rs, t'')

/-- Modelled from the spec: the engine's select operation returns the
emitted rows and `EXECUTE_SUCCESS`. -/
def execute_select (t : Table) : (ExecuteResult × List Row) × Table :=
  let (rs, t') := select_rows t 0 t.num_rows
  ((EXECUTE_SUCCESS, rs), t')

/-- Modelled from the spec: `execute_statement` (declared at `repl.h` line
141, body missing from `src/`) dispatches on the statement type; the result
pairs the `ExecuteResult` with the rows the statement emitted (empty for
insert). -/
def execute_statement (st : Statement) (t : Table) : (ExecuteResult × List Row) × Table :=
  match st.type with
  | StatementType.STATEMENT_INSERT =>
    let (res, t') := execute_insert st t
    ((res, []), t')
  | StatementType.STATEMENT_SELECT => execute_select t

/-- Structural well-formedness of a table: the page array has exactly
`TABLE_MAX_PAGES` entries, every entry reads back as a `PAGE_SIZE`-byte
page, and the pages holding rows below `num_rows` are allocated. -/
def WFTable (t : Table) : Prop :=
  t.pages.length = TABLE_MAX_PAGES ∧
  (∀ i, i < TABLE_MAX_PAGES → ((t.pages.getD i none).getD zeroPage).length = PAGE_SIZE) ∧
  (∀ k, k < t.num_rows → (t.pages.getD (k / ROWS_PER_PAGE) none).isSome)

instance (t : Table) : Decidable (WFTable t) := by
  unfold WFTable; infer_instance

/-- A select statement value (the engine ignores `row_to_insert` for
selects). -/
def select_stmt : Statement :=
  { type := StatementType.STATEMENT_SELECT, row_to_insert := { id := 0, username := [], email := [] } }

/-- Run a list of insert statements in order, collecting the results
(the engine applied to `insert r` for each `r`). -/
def run_inserts (rs : List Row) (t : Table) : List ExecuteResult × Table :=
  match rs with
  | [] => ([], t)
  | r :: rest =>
    let (res, t') := execute_insert { type := StatementType.STATEMENT_INSERT, row_to_insert := r } t
    let (ress, t'') := run_inserts rest t'
    (res :: ress, t'')

/-- The base page a write to row `n` starts from: the allocated page, or a
fresh zero page. -/
def basePage (t : Table) (n : Nat) : Page :=
  (t.pages.getD (n / ROWS_PER_PAGE) none).getD zeroPage

/-- The spec's example row: `{id:1, username:"alice", email:"a@example.com"}`,
fields zero-padded to their fixed widths. -/
def row_alice : Row :=
  { id := 1
    username := [97, 108, 105, 99, 101] ++ List.replicate 27 0
    email := [97, 64, 101, 120, 97, 109, 112, 108, 101, 46, 99, 111, 109]
      ++ List.replicate 242 0 }

/-- A second concrete valid row. -/
def row_bob : Row :=
  { id := 2
    username := [98, 111, 98] ++ List.replicate 29 0
    email := [98, 64, 101, 120, 97, 109, 112, 108, 101, 46, 99, 111, 109]
      ++ List.replicate 242 0 }

/-- An insert statement carrying `row_alice`. -/
def insert_alice : Statement :=
  { type := StatementType.STATEMENT_INSERT, row_to_insert := row_alice }

/-- A table whose row count is at capacity. -/
def full_table : Table :=
  { num_rows := TABLE_MAX_ROWS, pages := List.replicate TABLE_MAX_PAGES none }

lemma decodeU32_encodeU32 (n : Nat) (h : n < 2 ^ 32) :
    decodeU32 (encodeU32 n) = n := by
  simp only [encodeU32, decodeU32]
  omega

lemma encodeU32_length (n : Nat) : (encodeU32 n).length = 4 := rfl

/-- C1: Row codec round-trip: for every valid row R, decoding the bytes
produced by encoding R yields a row equal to R. -/
theorem serialize_deserialize_round_trip (r : Row) (h : ValidRow r) :
    deserialize_row (serialize_row r) = r := by
  obtain ⟨id, u, e⟩ := r
  obtain ⟨hid, hulen, -, helen, -⟩ := h
  have h4 : (encodeU32 id).length = 4 := rfl
  have hulen' : u.length = 32 := hulen
  have helen' : e.length = 255 := helen
  have h36 : (encodeU32 id ++ u).length = 36 := by
    rw [List.length_append, h4, hulen']
  have hs : serialize_row ⟨id, u, e⟩ = encodeU32 id ++ (u ++ e) := by
    simp [serialize_row, List.append_assoc]
  simp only [deserialize_row, hs, Row.mk.injEq,
    ID_OFFSET, ID_SIZE, USERNAME_OFFSET, USERNAME_SIZE, EMAIL_OFFSET, EMAIL_SIZE,
    COLUMN_USERNAME_SIZE, COLUMN_EMAIL_SIZE, List.drop_zero, Nat.zero_add]
  refine ⟨?_, ?_, ?_⟩
  · rw [List.take_left' h4, decodeU32_encodeU32 _ hid]
  · rw [List.drop_left' h4, List.take_left' hulen']
  · rw [← List.append_assoc, List.drop_left' h36, List.take_of_length_le helen'.le]

/-- Witness for C1 at the concrete row {id 1, username "alice", email
"a@example.com"} (zero-padded to the fixed field widths). -/
theorem serialize_deserialize_round_trip_witness :
    deserialize_row (serialize_row
      { id := 1
        username := [97, 108, 105, 99, 101] ++ List.replicate 27 0
        email := [97, 64, 101, 120, 97, 109, 112, 108, 101, 46, 99, 111, 109]
          ++ List.replicate 242 0 }) =
      { id := 1
        username := [97, 108, 105, 99, 101] ++ List.replicate 27 0
        email := [97, 64, 101, 120, 97, 109, 112, 108, 101, 46, 99, 111, 109]
          ++ List.replicate 242 0 } :=
  serialize_deserialize_round_trip _ (by decide)

lemma ROW_SIZE_val : ROW_SIZE = 291 := by decide

lemma ROWS_PER_PAGE_val : ROWS_PER_PAGE = 14 := by decide

lemma TABLE_MAX_ROWS_val : TABLE_MAX_ROWS = 1400 := by decide

lemma PAGE_SIZE_val : PAGE_SIZE = 4096 := by decide

lemma TABLE_MAX_PAGES_val : TABLE_MAX_PAGES = 100 := by decide

lemma zeroPage_length : zeroPage.length = PAGE_SIZE := by
  simp [zeroPage]

/-- Every slot lies entirely within its page. -/
lemma slot_fits (k : Nat) : k % ROWS_PER_PAGE * ROW_SIZE + ROW_SIZE ≤ PAGE_SIZE := by
  have h : k % ROWS_PER_PAGE < 14 := ROWS_PER_PAGE_val ▸ Nat.mod_lt _ (by decide)
  rw [ROWS_PER_PAGE_val, ROW_SIZE_val, PAGE_SIZE_val] at *
  omega

/-- A row-number below `TABLE_MAX_ROWS` addresses a page below
`TABLE_MAX_PAGES`. -/
lemma page_index_lt (k : Nat) (hk : k < TABLE_MAX_ROWS) :
    k / ROWS_PER_PAGE < TABLE_MAX_PAGES := by
  rw [ROWS_PER_PAGE_val, TABLE_MAX_PAGES_val]
  rw [TABLE_MAX_ROWS_val] at hk
  omega

lemma serialize_row_length (r : Row) (h : ValidRow r) :
    (serialize_row r).length = ROW_SIZE := by
  obtain ⟨-, hu, -, he, -⟩ := h
  simp [serialize_row, encodeU32, hu, he, ROW_SIZE, ID_SIZE, USERNAME_SIZE, EMAIL_SIZE,
    COLUMN_USERNAME_SIZE, COLUMN_EMAIL_SIZE]

lemma writeBytes_length (p : Page) (off : Nat) (bs : List Nat)
    (h : off + bs.length ≤ p.length) : (writeBytes p off bs).length = p.length := by
  simp [writeBytes]
  omega

/-- Reading back exactly the bytes just written. -/
lemma readBytes_writeBytes_self (p : Page) (off : Nat) (bs : List Nat)
    (h : off + bs.length ≤ p.length) :
    readBytes (writeBytes p off bs) off bs.length = bs := by
  have hoff : (p.take off).length = off := by
    rw [List.length_take]; omega
  simp only [writeBytes, readBytes, List.append_assoc]
  rw [List.drop_left' hoff, List.take_left' rfl]

/-- A read is determined by the prefix of the page it ends in. -/
lemma readBytes_take (q : Page) (o l : Nat) :
    readBytes q o l = (q.take (o + l)).drop o := by
  rw [List.drop_take, readBytes]
  congr 1
  omega

/-- A write does not disturb a read that ends before it. -/
lemma readBytes_writeBytes_before (p : Page) (off o l : Nat) (bs : List Nat)
    (hol : o + l ≤ off) (hoffp : off ≤ p.length) :
    readBytes (writeBytes p off bs) o l = readBytes p o l := by
  rw [readBytes_take, readBytes_take]
  have h1 : (p.take off).length = off := by
    rw [List.length_take]; omega
  have hwb : (writeBytes p off bs).take (o + l) = p.take (o + l) := by
    rw [writeBytes, List.append_assoc, List.take_append_eq_append_take, h1]
    have h2 : o + l - off = 0 := by omega
    rw [h2, List.take_zero, List.append_nil, List.take_take]
    congr 1
    omega
  rw [hwb]

/-- A write does not disturb a read that starts after it. -/
lemma readBytes_writeBytes_after (p : Page) (off o l : Nat) (bs : List Nat)
    (hol : off + bs.length ≤ o) (hp : off + bs.length ≤ p.length) :
    readBytes (writeBytes p off bs) o l = readBytes p o l := by
  have h1 : (p.take off).length = off := by
    rw [List.length_take]; omega
  have h2 : (p.take off).drop o = [] := by
    apply List.drop_eq_nil_of_le
    rw [h1]; omega
  have h3 : bs.drop (o - off) = [] := List.drop_eq_nil_of_le (by omega)
  simp only [writeBytes, readBytes, List.append_assoc, List.drop_append_eq_append_drop,
    h1, h2, h3, List.nil_append, List.length_drop, List.drop_drop]
  congr 2
  omega

lemma getD_set_self (l : List (Option Page)) (i : Nat) (x : Option Page)
    (h : i < l.length) : (l.set i x).getD i none = x := by
  rw [List.getD_eq_getElem?_getD, List.getElem?_set_self h]
  rfl

lemma getD_set_ne (l : List (Option Page)) (i j : Nat) (x : Option Page)
    (h : i ≠ j) : (l.set i x).getD j none = l.getD j none := by
  rw [List.getD_eq_getElem?_getD, List.getElem?_set_ne h, ← List.getD_eq_getElem?_getD]

/-- Lemma stating `writeRowAt` in closed form: the page of row `n` is spliced with the
serialized row; nothing else changes. -/
lemma writeRowAt_eq (t : Table) (n : Nat) (r : Row) :
    writeRowAt t n r =
      { num_rows := t.num_rows
        pages := t.pages.set (n / ROWS_PER_PAGE)
          (some (writeBytes (basePage t n) (n % ROWS_PER_PAGE * ROW_SIZE) (serialize_row r))) } := by
  cases hg : t.pages[n / ROWS_PER_PAGE]?.getD none with
  | none =>
    simp [writeRowAt, row_slot, page_for, basePage, List.getD_eq_getElem?_getD, hg,
      List.set_set]
  | some p =>
    simp [writeRowAt, row_slot, page_for, basePage, List.getD_eq_getElem?_getD, hg]

lemma basePage_length (t : Table) (n : Nat)
    (hwf : ∀ i, i < TABLE_MAX_PAGES → ((t.pages.getD i none).getD zeroPage).length = PAGE_SIZE)
    (hn : n < TABLE_MAX_ROWS) : (basePage t n).length = PAGE_SIZE :=
  hwf _ (page_index_lt n hn)

lemma writeRowAt_num_rows (t : Table) (n : Nat) (r : Row) :
    (writeRowAt t n r).num_rows = t.num_rows := by
  rw [writeRowAt_eq]

lemma writeRowAt_pages_length (t : Table) (n : Nat) (r : Row) :
    (writeRowAt t n r).pages.length = t.pages.length := by
  rw [writeRowAt_eq]
  simp

/-- Reading row `n` right after writing row `n` recovers the written row. -/
lemma readRowPure_writeRowAt_self (t : Table) (n : Nat) (r : Row)
    (hlen : t.pages.length = TABLE_MAX_PAGES)
    (hwf : ∀ i, i < TABLE_MAX_PAGES → ((t.pages.getD i none).getD zeroPage).length = PAGE_SIZE)
    (hn : n < TABLE_MAX_ROWS) (hv : ValidRow r) :
    readRowPure (writeRowAt t n r) n = r := by
  rw [writeRowAt_eq, readRowPure]
  have hidx : n / ROWS_PER_PAGE < t.pages.length := hlen ▸ page_index_lt n hn
  rw [show ({ num_rows := t.num_rows, pages := t.pages.set (n / ROWS_PER_PAGE) _ } : Table).pages
      = t.pages.set (n / ROWS_PER_PAGE)
        (some (writeBytes (basePage t n) (n % ROWS_PER_PAGE * ROW_SIZE) (serialize_row r)))
    from rfl]
  rw [getD_set_self _ _ _ hidx]
  simp only [Option.getD_some]
  have hfit : n % ROWS_PER_PAGE * ROW_SIZE + (serialize_row r).length ≤ (basePage t n).length := by
    rw [serialize_row_length r hv, basePage_length t n hwf hn]
    exact slot_fits n
  have hread := readBytes_writeBytes_self (basePage t n) (n % ROWS_PER_PAGE * ROW_SIZE)
    (serialize_row r) hfit
  rw [serialize_row_length r hv] at hread
  rw [hread]
  exact serialize_deserialize_round_trip r hv

/-- Writing row `n` does not change the value read at any other in-range
row `k`. -/
lemma readRowPure_writeRowAt_ne (t : Table) (k n : Nat) (r : Row)
    (hlen : t.pages.length = TABLE_MAX_PAGES)
    (hwf : ∀ i, i < TABLE_MAX_PAGES → ((t.pages.getD i none).getD zeroPage).length = PAGE_SIZE)
    (hk : k < TABLE_MAX_ROWS) (hn : n < TABLE_MAX_ROWS) (hkn : k ≠ n)
    (hv : ValidRow r)
    (halloc : (t.pages.getD (k / ROWS_PER_PAGE) none).isSome) :
    readRowPure (writeRowAt t n r) k = readRowPure t k := by
  rw [writeRowAt_eq, readRowPure, readRowPure]
  by_cases hpage : n / ROWS_PER_PAGE = k / ROWS_PER_PAGE
  · -- same page: the two slots are disjoint byte ranges
    obtain ⟨p, hp⟩ := Option.isSome_iff_exists.mp halloc
    have hp' : t.pages.getD (n / ROWS_PER_PAGE) none = some p := by
      rw [hpage]; exact hp
    have hbase : basePage t n = p := by
      rw [basePage, hp']; rfl
    have hidx : n / ROWS_PER_PAGE < t.pages.length := hlen ▸ page_index_lt n hn
    rw [show ({ num_rows := t.num_rows, pages := t.pages.set (n / ROWS_PER_PAGE) _ } : Table).pages
        = t.pages.set (n / ROWS_PER_PAGE)
          (some (writeBytes (basePage t n) (n % ROWS_PER_PAGE * ROW_SIZE) (serialize_row r)))
      from rfl]
    rw [← hpage, getD_set_self _ _ _ hidx, hbase, hp']
    simp only [Option.getD_some]
    have hplen : p.length = PAGE_SIZE := by
      have := hwf _ (page_index_lt k hk)
      rwa [hp, Option.getD_some] at this
    have hmodeq : k % ROWS_PER_PAGE ≠ n % ROWS_PER_PAGE := by
      rw [ROWS_PER_PAGE_val] at *
      omega
    congr 1
    rcases Nat.lt_or_ge (k % ROWS_PER_PAGE) (n % ROWS_PER_PAGE) with hlt | hge
    · apply readBytes_writeBytes_before
      · rw [ROWS_PER_PAGE_val] at hlt
        rw [ROWS_PER_PAGE_val, ROW_SIZE_val]
        omega
      · rw [hplen]
        have := slot_fits n
        omega
    · apply readBytes_writeBytes_after
      · rw [serialize_row_length r hv]
        rw [ROWS_PER_PAGE_val] at hge hmodeq
        rw [ROWS_PER_PAGE_val, ROW_SIZE_val]
        omega
      · rw [serialize_row_length r hv, hplen]
        exact slot_fits n
  · -- different pages: the page of `k` is untouched
    rw [show ({ num_rows := t.num_rows, pages := t.pages.set (n / ROWS_PER_PAGE) _ } : Table).pages
        = t.pages.set (n / ROWS_PER_PAGE)
          (some (writeBytes (basePage t n) (n % ROWS_PER_PAGE * ROW_SIZE) (serialize_row r)))
      from rfl]
    rw [getD_set_ne _ _ _ _ hpage]

lemma getD_replicate_none (n i : Nat) :
    (List.replicate n (none : Option Page)).getD i none = none := by
  simp only [List.getD_eq_getElem?_getD, List.getElem?_replicate]
  split <;> rfl

lemma WFTable_new_table : WFTable new_table := by
  refine ⟨by simp [new_table], ?_, ?_⟩
  · intro i _
    rw [new_table, getD_replicate_none]
    exact zeroPage_length
  · intro k hk
    simp [new_table] at hk

lemma tableRows_new_table : tableRows new_table = [] := by
  simp [tableRows, new_table]

lemma readRowPure_congr_pages (t1 t2 : Table) (h : t1.pages = t2.pages) (k : Nat) :
    readRowPure t1 k = readRowPure t2 k := by
  rw [readRowPure, readRowPure, h]

lemma execute_insert_of_lt (st : Statement) (t : Table) (hlt : t.num_rows < TABLE_MAX_ROWS) :
    execute_insert st t =
      (EXECUTE_SUCCESS,
        { num_rows := t.num_rows + 1, pages := (writeRowAt t t.num_rows st.row_to_insert).pages }) := by
  rw [execute_insert, if_neg (by omega)]
  rw [Prod.mk.injEq]
  refine ⟨rfl, ?_⟩
  rw [Table.mk.injEq]
  exact ⟨by rw [writeRowAt_num_rows], rfl⟩

/-- A successful insert preserves table well-formedness. -/
lemma WPTable_preserved_insert (st : Statement) (t : Table) (hwf : WFTable t)
    (hlt : t.num_rows < TABLE_MAX_ROWS) (hv : ValidRow st.row_to_insert) :
    WFTable (execute_insert st t).2 := by
  obtain ⟨hlen, hpg, hcov⟩ := hwf
  rw [execute_insert_of_lt st t hlt]
  dsimp only
  have hidx : t.num_rows / ROWS_PER_PAGE < t.pages.length := hlen ▸ page_index_lt _ hlt
  rw [writeRowAt_eq]
  dsimp only
  refine ⟨by simpa using hlen, ?_, ?_⟩
  · intro i hi
    by_cases hieq : t.num_rows / ROWS_PER_PAGE = i
    · subst hieq
      rw [getD_set_self _ _ _ hidx, Option.getD_some]
      rw [writeBytes_length]
      · exact hpg _ (page_index_lt _ hlt)
      · rw [serialize_row_length _ hv, basePage_length t _ hpg hlt]
        exact slot_fits _
    · rw [getD_set_ne _ _ _ _ hieq]
      exact hpg i hi
  · intro k hk
    by_cases hkeq : t.num_rows / ROWS_PER_PAGE = k / ROWS_PER_PAGE
    · rw [← hkeq, getD_set_self _ _ _ hidx]
      rfl
    · rw [getD_set_ne _ _ _ _ hkeq]
      have hk2 : k < t.num_rows + 1 := hk
      have hk' : k < t.num_rows := by
        rcases Nat.lt_or_ge k t.num_rows with h | h
        · exact h
        · exact absurd (by omega : k = t.num_rows) (fun he => hkeq (by rw [he]))
      exact hcov k hk'

/-- A successful insert appends exactly the inserted row to the abstract
contents. -/
lemma tableRows_insert (st : Statement) (t : Table) (hwf : WFTable t)
    (hlt : t.num_rows < TABLE_MAX_ROWS) (hv : ValidRow st.row_to_insert) :
    tableRows (execute_insert st t).2 = tableRows t ++ [st.row_to_insert] := by
  obtain ⟨hlen, hpg, hcov⟩ := hwf
  rw [execute_insert_of_lt st t hlt]
  dsimp only
  rw [tableRows, tableRows]
  dsimp only
  rw [List.range_succ, List.map_append, List.map_cons, List.map_nil]
  congr 1
  · apply List.map_congr_left
    intro k hk
    rw [List.mem_range] at hk
    exact readRowPure_writeRowAt_ne t k t.num_rows st.row_to_insert hlen hpg
      (by omega) hlt (by omega) hv (hcov k hk)
  · exact congrArg (fun x => [x])
      (readRowPure_writeRowAt_self t t.num_rows st.row_to_insert hlen hpg hlt hv)

lemma page_for_allocated (t : Table) (i : Nat) (p : Page)
    (hp : t.pages.getD i none = some p) : page_for t i = (p, t) := by
  unfold page_for
  rw [hp]

lemma page_for_unallocated (t : Table) (i : Nat)
    (hp : t.pages.getD i none = none) :
    page_for t i = (zeroPage, { t with pages := t.pages.set i (some zeroPage) }) := by
  unfold page_for
  rw [hp]

/-- Reading a row whose page is allocated has no side effect and returns
the pure value. -/
lemma readRowAt_allocated (t : Table) (k : Nat) (p : Page)
    (hp : t.pages.getD (k / ROWS_PER_PAGE) none = some p) :
    readRowAt t k = (readRowPure t k, t) := by
  simp only [readRowAt, row_slot, page_for_allocated t _ p hp, readRowPure, hp,
    Option.getD_some]

lemma readRowAt_num_rows (t : Table) (k : Nat) :
    (readRowAt t k).2.num_rows = t.num_rows := by
  cases hg : t.pages.getD (k / ROWS_PER_PAGE) none with
  | some p => rw [readRowAt_allocated t k p hg]
  | none => simp only [readRowAt, row_slot, page_for_unallocated t _ hg]

lemma readRowAt_alloc_preserved (t : Table) (k j : Nat) (pg : Page)
    (hj : t.pages.getD j none = some pg) :
    (readRowAt t k).2.pages.getD j none = some pg := by
  cases hg : t.pages.getD (k / ROWS_PER_PAGE) none with
  | some p => rw [readRowAt_allocated t k p hg]; exact hj
  | none =>
    have hne : k / ROWS_PER_PAGE ≠ j := by
      intro he
      rw [he, hj] at hg
      cases hg
    have h2 : (readRowAt t k).2 =
        { t with pages := t.pages.set (k / ROWS_PER_PAGE) (some zeroPage) } := by
      simp only [readRowAt, row_slot, page_for_unallocated t _ hg]
    rw [h2]
    dsimp only
    rw [getD_set_ne _ _ _ _ hne]
    exact hj

/-- The select scan over covered rows emits the pure row values and leaves
the table unchanged. -/
lemma select_rows_covered (rem : Nat) :
    ∀ (t : Table) (i : Nat),
    (∀ k, i ≤ k → k < i + rem → (t.pages.getD (k / ROWS_PER_PAGE) none).isSome) →
    select_rows t i rem = ((List.range' i rem).map (readRowPure t), t) := by
  induction rem with
  | zero => intro t i _; rfl
  | succ m ih =>
    intro t i hcov
    have hall := hcov i (Nat.le_refl i) (by omega)
    obtain ⟨p, hp⟩ := Option.isSome_iff_exists.mp hall
    simp only [select_rows]
    rw [readRowAt_allocated t i p hp]
    rw [ih t (i + 1) (fun k hk1 hk2 => hcov k (by omega) (by omega))]
    rw [List.range'_succ, List.map_cons]

lemma select_rows_num_rows (rem : Nat) :
    ∀ (t : Table) (i : Nat), (select_rows t i rem).2.num_rows = t.num_rows := by
  induction rem with
  | zero => intro t i; rfl
  | succ m ih =>
    intro t i
    rcases hra : readRowAt t i with ⟨r, t'⟩
    simp only [select_rows, hra]
    rw [ih t' (i + 1)]
    have h := readRowAt_num_rows t i
    rw [hra] at h
    exact h

lemma select_rows_alloc_preserved (rem : Nat) :
    ∀ (t : Table) (i j : Nat) (pg : Page), t.pages.getD j none = some pg →
      (select_rows t i rem).2.pages.getD j none = some pg := by
  induction rem with
  | zero => intro t i j pg hj; exact hj
  | succ m ih =>
    intro t i j pg hj
    rcases hra : readRowAt t i with ⟨r, t'⟩
    simp only [select_rows, hra]
    apply ih
    have h := readRowAt_alloc_preserved t i j pg hj
    rw [hra] at h
    exact h

/-- On a well-formed table, select emits exactly the abstract contents and
leaves the table unchanged. -/
lemma execute_select_eq (t : Table) (hwf : WFTable t) :
    execute_select t = ((EXECUTE_SUCCESS, tableRows t), t) := by
  rw [execute_select, select_rows_covered t.num_rows t 0
    (fun k hk1 hk2 => hwf.2.2 k (by omega))]
  rw [tableRows, List.range_eq_range']

/-- Running a list of valid inserts within capacity: all succeed, keeps the
table well-formed, and the abstract contents grow by exactly those rows in
order. -/
lemma run_inserts_spec (rs : List Row) :
    ∀ t : Table, WFTable t → (∀ r ∈ rs, ValidRow r) →
    t.num_rows + rs.length ≤ TABLE_MAX_ROWS →
    (run_inserts rs t).1 = List.replicate rs.length EXECUTE_SUCCESS ∧
    WFTable (run_inserts rs t).2 ∧
    (run_inserts rs t).2.num_rows = t.num_rows + rs.length ∧
    tableRows (run_inserts rs t).2 = tableRows t ++ rs := by
  induction rs with
  | nil => intro t hwf _ _; exact ⟨rfl, hwf, rfl, by simp [run_inserts]⟩
  | cons r rest ih =>
    intro t hwf hv hlen
    have hlt : t.num_rows < TABLE_MAX_ROWS := by
      rw [List.length_cons] at hlen
      omega
    have hvr : ValidRow r := hv r (List.mem_cons_self r rest)
    have hres := execute_insert_of_lt ⟨StatementType.STATEMENT_INSERT, r⟩ t hlt
    have hwfR : WFTable
        ({ num_rows := t.num_rows + 1, pages := (writeRowAt t t.num_rows r).pages } : Table) := by
      have h := WPTable_preserved_insert ⟨StatementType.STATEMENT_INSERT, r⟩ t hwf hlt hvr
      rw [hres] at h
      exact h
    have hrowsR : tableRows
        ({ num_rows := t.num_rows + 1, pages := (writeRowAt t t.num_rows r).pages } : Table)
        = tableRows t ++ [r] := by
      have h := tableRows_insert ⟨StatementType.STATEMENT_INSERT, r⟩ t hwf hlt hvr
      rw [hres] at h
      exact h
    simp only [run_inserts, hres]
    obtain ⟨ih1, ih2, ih3, ih4⟩ := ih
      { num_rows := t.num_rows + 1, pages := (writeRowAt t t.num_rows r).pages }
      hwfR (fun x hx => hv x (List.mem_cons_of_mem r hx))
      (by
        rw [List.length_cons] at hlen
        dsimp only
        omega)
    refine ⟨?_, ih2, ?_, ?_⟩
    · rw [List.length_cons, List.replicate_succ]
      exact congrArg (List.cons EXECUTE_SUCCESS) ih1
    · rw [ih3, List.length_cons]
      dsimp only
      omega
    · rw [ih4, hrowsR, List.append_assoc, List.singleton_append]

/-- Applying `execute_statement` to a select statement is the select scan. -/
lemma execute_statement_select (t : Table) :
    execute_statement select_stmt t = execute_select t := rfl

/-- The insert path on a full table: report table-full, no mutation. -/
lemma execute_statement_insert_full (st : Statement) (t : Table)
    (hty : st.type = StatementType.STATEMENT_INSERT)
    (hfull : TABLE_MAX_ROWS ≤ t.num_rows) :
    execute_statement st t = ((EXECUTE_TABLE_FULL, []), t) := by
  have h : execute_insert st t = (EXECUTE_TABLE_FULL, t) := by
    rw [execute_insert, if_pos hfull]
  simp only [execute_statement, hty, h]

lemma execute_statement_insert_lt (st : Statement) (t : Table)
    (hty : st.type = StatementType.STATEMENT_INSERT)
    (hlt : t.num_rows < TABLE_MAX_ROWS) :
    execute_statement st t = ((EXECUTE_SUCCESS, []),
      { num_rows := t.num_rows + 1, pages := (writeRowAt t t.num_rows st.row_to_insert).pages }) := by
  have h := execute_insert_of_lt st t hlt
  simp only [execute_statement, hty, h]

lemma execute_insert_num_rows_le_max (st : Statement) (t : Table)
    (h : t.num_rows ≤ TABLE_MAX_ROWS) :
    (execute_insert st t).2.num_rows ≤ TABLE_MAX_ROWS := by
  rcases Nat.lt_or_ge t.num_rows TABLE_MAX_ROWS with hlt | hge
  · rw [execute_insert_of_lt st t hlt]
    dsimp only
    omega
  · rw [execute_insert, if_pos (by omega)]
    exact h

/-- Any statement keeps the row count within capacity. -/
lemma execute_statement_num_rows_le (st : Statement) (t : Table)
    (h : t.num_rows ≤ TABLE_MAX_ROWS) :
    (execute_statement st t).2.num_rows ≤ TABLE_MAX_ROWS := by
  cases hty : st.type with
  | STATEMENT_INSERT =>
    rcases hei : execute_insert st t with ⟨res, t'⟩
    simp only [execute_statement, hty, hei]
    have h2 := execute_insert_num_rows_le_max st t h
    rw [hei] at h2
    exact h2
  | STATEMENT_SELECT =>
    rcases hs : select_rows t 0 t.num_rows with ⟨rs, t'⟩
    simp only [execute_statement, hty, execute_select, hs]
    have h2 := select_rows_num_rows t.num_rows t 0
    rw [hs] at h2
    dsimp only at h2 ⊢
    omega

/-- An insert never touches a page other than the one its row lands on. -/
lemma execute_insert_pages_untouched (st : Statement) (t : Table) (i : Nat)
    (hne : t.num_rows / ROWS_PER_PAGE ≠ i) :
    (execute_insert st t).2.pages.getD i none = t.pages.getD i none := by
  rcases Nat.lt_or_ge t.num_rows TABLE_MAX_ROWS with hlt | hge
  · rw [execute_insert_of_lt st t hlt]
    dsimp only
    rw [writeRowAt_eq]
    dsimp only
    rw [getD_set_ne _ _ _ _ hne]
  · rw [execute_insert, if_pos (by omega)]

lemma execute_insert_num_rows_le_succ (st : Statement) (t : Table) :
    (execute_insert st t).2.num_rows ≤ t.num_rows + 1 := by
  rcases Nat.lt_or_ge t.num_rows TABLE_MAX_ROWS with hlt | hge
  · rw [execute_insert_of_lt st t hlt]
  · rw [execute_insert, if_pos (by omega)]
    dsimp only
    omega

/-- Pages past the rows ever inserted are never allocated. -/
lemma run_inserts_pages_untouched (rs : List Row) :
    ∀ (t : Table) (i : Nat), t.num_rows + rs.length ≤ ROWS_PER_PAGE * i →
      t.pages.getD i none = none →
      (run_inserts rs t).2.pages.getD i none = none := by
  induction rs with
  | nil => intro t i _ h; exact h
  | cons r rest ih =>
    intro t i hbound hnone
    rcases hei : execute_insert ⟨StatementType.STATEMENT_INSERT, r⟩ t with ⟨res, t'⟩
    simp only [run_inserts, hei]
    have hne : t.num_rows / ROWS_PER_PAGE ≠ i := by
      rw [List.length_cons] at hbound
      rw [ROWS_PER_PAGE_val] at hbound ⊢
      intro he
      omega
    have huntouched := execute_insert_pages_untouched ⟨StatementType.STATEMENT_INSERT, r⟩ t i hne
    rw [hei] at huntouched
    have hsucc := execute_insert_num_rows_le_succ ⟨StatementType.STATEMENT_INSERT, r⟩ t
    rw [hei] at hsucc
    have hsucc2 : t'.num_rows ≤ t.num_rows + 1 := hsucc
    apply ih t' i
    · rw [List.length_cons] at hbound
      omega
    · rw [huntouched]
      exact hnone

lemma row_slot_offset_eq (t : Table) (k : Nat) :
    (row_slot t k).1.2 = k % ROWS_PER_PAGE * ROW_SIZE := by
  rcases hp : page_for t (k / ROWS_PER_PAGE) with ⟨p, t'⟩
  simp only [row_slot, hp]

/-- C2: inserting into a table with `num_rows = TABLE_MAX_ROWS` returns the
table-full result, leaves the table (row count and pages) unchanged, and
`execute_statement` always returns one of exactly the two results success
and table-full. -/
theorem insert_on_full_table_rejected (st : Statement) (t : Table)
    (hty : st.type = StatementType.STATEMENT_INSERT)
    (hfull : t.num_rows = TABLE_MAX_ROWS) :
    execute_statement st t = ((EXECUTE_TABLE_FULL, []), t) ∧
    ∀ (st2 : Statement) (t2 : Table),
      (execute_statement st2 t2).1.1 = EXECUTE_SUCCESS ∨
      (execute_statement st2 t2).1.1 = EXECUTE_TABLE_FULL := by
  constructor
  · exact execute_statement_insert_full st t hty (by omega)
  · intro st2 t2
    cases (execute_statement st2 t2).1.1
    · exact Or.inl rfl
    · exact Or.inr rfl

/-- Witness for C2: an insert into a concrete table at capacity is rejected
and the table is returned unchanged. -/
theorem insert_on_full_table_rejected_witness :
    insert_alice.type = StatementType.STATEMENT_INSERT ∧
    full_table.num_rows = TABLE_MAX_ROWS ∧
    execute_statement insert_alice full_table = ((EXECUTE_TABLE_FULL, []), full_table) :=
  ⟨rfl, rfl, (insert_on_full_table_rejected insert_alice full_table rfl rfl).1⟩

/-- C3: for every sequence of at most `TABLE_MAX_ROWS` valid rows, inserting
them all into a fresh table succeeds for each row, and a subsequent select
emits exactly those rows in insertion order; select on an empty table emits
zero rows. -/
theorem select_yields_inserts_in_order (rs : List Row)
    (hv : ∀ r ∈ rs, ValidRow r) (hlen : rs.length ≤ TABLE_MAX_ROWS) :
    (run_inserts rs new_table).1 = List.replicate rs.length EXECUTE_SUCCESS ∧
    (execute_statement select_stmt (run_inserts rs new_table).2).1.2 = rs ∧
    (execute_statement select_stmt new_table).1.2 = [] := by
  obtain ⟨h1, h2, h3, h4⟩ := run_inserts_spec rs new_table WFTable_new_table hv
    (by
      show new_table.num_rows + rs.length ≤ TABLE_MAX_ROWS
      rw [show new_table.num_rows = 0 from rfl]
      omega)
  refine ⟨h1, ?_, ?_⟩
  · rw [execute_statement_select, execute_select_eq _ h2]
    dsimp only
    rw [h4, tableRows_new_table, List.nil_append]
  · rw [execute_statement_select, execute_select_eq _ WFTable_new_table]
    dsimp only
    exact tableRows_new_table

/-- Witness for C3 at the two concrete rows alice and bob: both inserts
succeed and select returns them in order. -/
theorem select_yields_inserts_in_order_witness :
    (∀ r ∈ [row_alice, row_bob], ValidRow r) ∧
    ([row_alice, row_bob] : List Row).length ≤ TABLE_MAX_ROWS ∧
    ((run_inserts [row_alice, row_bob] new_table).1
      = List.replicate 2 EXECUTE_SUCCESS ∧
     (execute_statement select_stmt (run_inserts [row_alice, row_bob] new_table).2).1.2
      = [row_alice, row_bob] ∧
     (execute_statement select_stmt new_table).1.2 = []) :=
  ⟨by decide, by decide,
    select_yields_inserts_in_order [row_alice, row_bob] (by decide) (by decide)⟩

/-- C4: on a non-full well-formed table, inserting a valid row returns
success, increments the row count by exactly one, and a subsequent select
sees exactly the previous rows followed by the new row. -/
theorem insert_success_one_row_effect (st : Statement) (t : Table)
    (hty : st.type = StatementType.STATEMENT_INSERT) (hwf : WFTable t)
    (hlt : t.num_rows < TABLE_MAX_ROWS) (hv : ValidRow st.row_to_insert) :
    (execute_statement st t).1.1 = EXECUTE_SUCCESS ∧
    (execute_statement st t).2.num_rows = t.num_rows + 1 ∧
    (execute_statement select_stmt (execute_statement st t).2).1.2
      = (execute_statement select_stmt t).1.2 ++ [st.row_to_insert] := by
  have hred := execute_statement_insert_lt st t hty hlt
  refine ⟨by rw [hred], by rw [hred], ?_⟩
  have hwf' : WFTable (execute_statement st t).2 := by
    have h := WPTable_preserved_insert st t hwf hlt hv
    rw [execute_insert_of_lt st t hlt] at h
    rw [hred]
    exact h
  have hrows : tableRows (execute_statement st t).2 = tableRows t ++ [st.row_to_insert] := by
    have h := tableRows_insert st t hwf hlt hv
    rw [execute_insert_of_lt st t hlt] at h
    rw [hred]
    exact h
  rw [execute_statement_select, execute_select_eq _ hwf',
    execute_statement_select, execute_select_eq _ hwf]
  dsimp only
  exact hrows

/-- Witness for C4: the spec scenario, inserting alice into a fresh table
then selecting yields exactly that one row. -/
theorem insert_success_one_row_effect_witness :
    insert_alice.type = StatementType.STATEMENT_INSERT ∧
    WFTable new_table ∧
    new_table.num_rows < TABLE_MAX_ROWS ∧
    ValidRow insert_alice.row_to_insert ∧
    ((execute_statement insert_alice new_table).1.1 = EXECUTE_SUCCESS ∧
     (execute_statement insert_alice new_table).2.num_rows = new_table.num_rows + 1 ∧
     (execute_statement select_stmt (execute_statement insert_alice new_table).2).1.2
       = (execute_statement select_stmt new_table).1.2 ++ [insert_alice.row_to_insert]) :=
  ⟨rfl, WFTable_new_table, by decide, by decide,
    insert_success_one_row_effect insert_alice new_table rfl WFTable_new_table
      (by decide) (by decide)⟩

/-- C5: for an in-range row number, `row_slot` computes the offset
`(row_number % ROWS_PER_PAGE) * ROW_SIZE` into the page with index
`row_number / ROWS_PER_PAGE`, and it never fails: the page it returns
exists (allocated on demand), has the full page size, and the slot lies
within it. -/
theorem row_slot_addressing (t : Table) (k : Nat) (hwf : WFTable t)
    (hk : k < TABLE_MAX_ROWS) :
    ∃ (page : Page) (t' : Table),
      row_slot t k = ((page, k % ROWS_PER_PAGE * ROW_SIZE), t') ∧
      t'.pages.getD (k / ROWS_PER_PAGE) none = some page ∧
      page.length = PAGE_SIZE ∧
      k % ROWS_PER_PAGE * ROW_SIZE + ROW_SIZE ≤ PAGE_SIZE := by
  cases hg : t.pages.getD (k / ROWS_PER_PAGE) none with
  | some p =>
    refine ⟨p, t, ?_, hg, ?_, slot_fits k⟩
    · simp only [row_slot, page_for_allocated t _ p hg]
    · have h := hwf.2.1 _ (page_index_lt k hk)
      rw [hg] at h
      exact h
  | none =>
    refine ⟨zeroPage, { t with pages := t.pages.set (k / ROWS_PER_PAGE) (some zeroPage) },
      ?_, ?_, zeroPage_length, slot_fits k⟩
    · simp only [row_slot, page_for_unallocated t _ hg]
    · have hidx : k / ROWS_PER_PAGE < t.pages.length := hwf.1 ▸ page_index_lt k hk
      exact getD_set_self _ _ _ hidx

/-- Witness for C5 at row number 17 of a fresh table (page 1, allocated on
demand). -/
theorem row_slot_addressing_witness :
    WFTable new_table ∧ 17 < TABLE_MAX_ROWS ∧
    (∃ (page : Page) (t' : Table),
      row_slot new_table 17 = ((page, 17 % ROWS_PER_PAGE * ROW_SIZE), t') ∧
      t'.pages.getD (17 / ROWS_PER_PAGE) none = some page ∧
      page.length = PAGE_SIZE ∧
      17 % ROWS_PER_PAGE * ROW_SIZE + ROW_SIZE ≤ PAGE_SIZE) :=
  ⟨WFTable_new_table, by decide,
    row_slot_addressing new_table 17 WFTable_new_table (by decide)⟩

/-- C6: the capacity invariant `num_rows ≤ TABLE_MAX_ROWS` holds of the
fresh table, is preserved by every statement, and an insert that would
exceed it is rejected with table-full and no mutation. -/
theorem capacity_invariant_preserved :
    new_table.num_rows ≤ TABLE_MAX_ROWS ∧
    (∀ (st : Statement) (t : Table), t.num_rows ≤ TABLE_MAX_ROWS →
      (execute_statement st t).2.num_rows ≤ TABLE_MAX_ROWS) ∧
    (∀ (st : Statement) (t : Table), st.type = StatementType.STATEMENT_INSERT →
      t.num_rows = TABLE_MAX_ROWS →
      (execute_statement st t).1.1 = EXECUTE_TABLE_FULL ∧
      (execute_statement st t).2 = t) := by
  refine ⟨Nat.zero_le _, execute_statement_num_rows_le, ?_⟩
  intro st t hty hfull
  rw [execute_statement_insert_full st t hty (by omega)]
  exact ⟨rfl, rfl⟩

/-- Witness for C6: the invariant is preserved by a concrete insert on a
table at capacity. -/
theorem capacity_invariant_preserved_witness :
    full_table.num_rows ≤ TABLE_MAX_ROWS ∧
    (execute_statement insert_alice full_table).2.num_rows ≤ TABLE_MAX_ROWS :=
  ⟨by decide, capacity_invariant_preserved.2.1 insert_alice full_table (by decide)⟩

/-- C7: slots `ROWS_PER_PAGE` apart are on different pages, and two
distinct in-range row numbers on the same page occupy disjoint
`ROW_SIZE`-byte ranges of that page. -/
theorem slot_disjointness (t : Table) (k k1 k2 : Nat)
    (hk : k + ROWS_PER_PAGE < TABLE_MAX_ROWS)
    (hk1 : k1 < TABLE_MAX_ROWS) (hk2 : k2 < TABLE_MAX_ROWS) (hne : k1 ≠ k2)
    (hsame : k1 / ROWS_PER_PAGE = k2 / ROWS_PER_PAGE) :
    (k + ROWS_PER_PAGE) / ROWS_PER_PAGE ≠ k / ROWS_PER_PAGE ∧
    ((row_slot t k1).1.2 + ROW_SIZE ≤ (row_slot t k2).1.2 ∨
     (row_slot t k2).1.2 + ROW_SIZE ≤ (row_slot t k1).1.2) := by
  rw [row_slot_offset_eq, row_slot_offset_eq]
  rw [ROWS_PER_PAGE_val] at hsame ⊢
  rw [ROW_SIZE_val]
  constructor
  · omega
  · omega

/-- Witness for C7 at rows 0 and 1 of a fresh table. -/
theorem slot_disjointness_witness :
    0 + ROWS_PER_PAGE < TABLE_MAX_ROWS ∧ (0 : Nat) < TABLE_MAX_ROWS ∧
    (1 : Nat) < TABLE_MAX_ROWS ∧ (0 : Nat) ≠ 1 ∧
    0 / ROWS_PER_PAGE = 1 / ROWS_PER_PAGE ∧
    ((0 + ROWS_PER_PAGE) / ROWS_PER_PAGE ≠ 0 / ROWS_PER_PAGE ∧
     ((row_slot new_table 0).1.2 + ROW_SIZE ≤ (row_slot new_table 1).1.2 ∨
      (row_slot new_table 1).1.2 + ROW_SIZE ≤ (row_slot new_table 0).1.2)) :=
  ⟨by decide, by decide, by decide, by decide, by decide,
    slot_disjointness new_table 0 0 1 (by decide) (by decide) (by decide)
      (by decide) (by decide)⟩

/-- C8: a fresh table has `num_rows = 0` and no pages allocated; the page
store hands out a fresh zero-initialized full page on first access to an
unallocated in-range index; and pages no insert has touched stay
unallocated. -/
theorem new_table_empty_lazy_alloc :
    new_table.num_rows = 0 ∧
    (∀ i, i < TABLE_MAX_PAGES → new_table.pages.getD i none = none) ∧
    (∀ (t : Table) (i : Nat), i < TABLE_MAX_PAGES → t.pages.getD i none = none →
      page_for t i = (zeroPage, { t with pages := t.pages.set i (some zeroPage) }) ∧
      zeroPage = List.replicate PAGE_SIZE 0) ∧
    (∀ (rs : List Row) (i : Nat), rs.length ≤ ROWS_PER_PAGE * i →
      (run_inserts rs new_table).2.pages.getD i none = none) := by
  refine ⟨rfl, ?_, ?_, ?_⟩
  · intro i _
    exact getD_replicate_none _ _
  · intro t i _ hnone
    exact ⟨page_for_unallocated t i hnone, rfl⟩
  · intro rs i hlen
    apply run_inserts_pages_untouched rs new_table i
    · rw [show new_table.num_rows = 0 from rfl]
      omega
    · exact getD_replicate_none _ _

/-- Witness for C8: first access to page 5 of a fresh table allocates a
zero page there. -/
theorem new_table_empty_lazy_alloc_witness :
    5 < TABLE_MAX_PAGES ∧ new_table.pages.getD 5 none = none ∧
    page_for new_table 5
      = (zeroPage, { new_table with pages := new_table.pages.set 5 (some zeroPage) }) :=
  ⟨by decide, by decide,
    (new_table_empty_lazy_alloc.2.2.1 new_table 5 (by decide) (by decide)).1⟩

/-- C9: `execute_statement` is a deterministic function of its inputs, and
any failing execution leaves the table exactly as it was. -/
theorem execute_deterministic_pure_failure :
    (∀ (st : Statement) (t1 t2 : Table), t1 = t2 →
      execute_statement st t1 = execute_statement st t2) ∧
    (∀ (st : Statement) (t : Table),
      (execute_statement st t).1.1 = EXECUTE_TABLE_FULL →
      (execute_statement st t).2 = t) := by
  constructor
  · intro st t1 t2 h
    rw [h]
  · intro st t
    cases hty : st.type with
    | STATEMENT_INSERT =>
      rcases Nat.lt_or_ge t.num_rows TABLE_MAX_ROWS with hlt | hge
      · rw [execute_statement_insert_lt st t hty hlt]
        intro h
        exact absurd h (by intro h2; cases h2)
      · rw [execute_statement_insert_full st t hty hge]
        intro _
        rfl
    | STATEMENT_SELECT =>
      rcases hs : select_rows t 0 t.num_rows with ⟨rs, t'⟩
      simp only [execute_statement, hty, execute_select, hs]
      intro h
      exact absurd h (by intro h2; cases h2)

/-- Witness for C9: a failing insert on a concrete full table leaves the
table unchanged. -/
theorem execute_deterministic_pure_failure_witness :
    (execute_statement insert_alice full_table).1.1 = EXECUTE_TABLE_FULL ∧
    (execute_statement insert_alice full_table).2 = full_table :=
  ⟨by decide,
    execute_deterministic_pure_failure.2 insert_alice full_table (by decide)⟩

/-- C10: executing a select leaves `num_rows` and the contents of every
allocated page unchanged, and on a well-formed table (every page holding a
live row allocated, as every table reachable through the engine is) the
table after the select equals the table before it. -/
theorem select_read_only (st : Statement) (t : Table)
    (hty : st.type = StatementType.STATEMENT_SELECT) :
    (execute_statement st t).2.num_rows = t.num_rows ∧
    (∀ (j : Nat) (pg : Page), t.pages.getD j none = some pg →
      (execute_statement st t).2.pages.getD j none = some pg) ∧
    (WFTable t → (execute_statement st t).2 = t) := by
  have hred : execute_statement st t = execute_select t := by
    simp only [execute_statement, hty]
  rw [hred]
  refine ⟨?_, ?_, ?_⟩
  · rcases hs : select_rows t 0 t.num_rows with ⟨rs, t'⟩
    simp only [execute_select, hs]
    have h := select_rows_num_rows t.num_rows t 0
    rw [hs] at h
    exact h
  · intro j pg hj
    rcases hs : select_rows t 0 t.num_rows with ⟨rs, t'⟩
    simp only [execute_select, hs]
    have h := select_rows_alloc_preserved t.num_rows t 0 j pg hj
    rw [hs] at h
    exact h
  · intro hwf
    rw [execute_select_eq t hwf]

/-- Witness for C10: selecting on a fresh table returns it unchanged. -/
theorem select_read_only_witness :
    select_stmt.type = StatementType.STATEMENT_SELECT ∧
    WFTable new_table ∧
    (execute_statement select_stmt new_table).2 = new_table :=
  ⟨rfl, WFTable_new_table,
    (select_read_only select_stmt new_table rfl).2.2 WFTable_new_table⟩

end SimpleDb
